import Mathlib

/-!
# A shallow embedding of the `midix` SMF decode-and-time pipeline

This file embeds the core of the `midix` Standard-MIDI-File decoder in Lean:
the byte-level event reader with its running-status state machine
(`src/midix/src/file_repr/track/event.rs`), the SMPTE offset parser and
microsecond arithmetic (`src/file/meta/smpte_offset.rs`,
`src/file/timing/smpte.rs`), the track assembler (`src/file/track.rs`), the
chunk-to-file builder state machine (`src/file/builder/mod.rs`) and the timed
event projector (`src/file/timed_event_iter.rs`).

Machine integers are embedded as `Nat`; the `u32` tick accumulation wraps with
an explicit `% 2 ^ 32`.  The `f64` timing arithmetic of the projector and of
the SMPTE offset computation is embedded over `ℚ` (real-valued arithmetic),
and the final `as u64` cast as `Int.toNat ∘ Rat.floor`, which agrees with the
source's truncating cast on the non-negative values produced here.

A few leaf functions of the repository live in a reader module that is not
among the sources (only their call sites are); each such function is marked
`Modelled from the spec:` in its doc string and follows the specification's
wording for it.
-/

namespace Midix

/-- Errors surfaced by the chunk-to-file builder state machine
(`ChunkError` in the sources). -/
inductive ChunkError
  | duplicateHeader
  | duplicateFormat
  | multipleTracksForSingleMultiChannel
  deriving DecidableEq, Repr

/-- Field-specific SMPTE parse errors (`SmpteError` in the sources). -/
inductive SmpteError
  | length (n : Nat)
  | trackFrame (v : Nat)
  | hourOffset (h : Nat)
  | minuteOffset (m : Nat)
  | secondOffset (s : Nat)
  | subframe (s : Nat)
  deriving DecidableEq, Repr

/-- The error surface of the decoder: parse errors, structural chunk errors,
out-of-bounds reads (`ReaderErrorKind` and `ParseError` in the sources),
and the end-of-stream signal rejected by the builder. -/
inductive Err
  | oob
  | invalidStatusByte (b : Nat)
  | invalidDataByte (b : Nat)
  | invalidMidiEvent
  | smpte (e : SmpteError)
  | chunk (e : ChunkError)
  | eof
  deriving DecidableEq, Repr

/-- The byte cursor of the event reader: an in-memory byte buffer plus a
position.  Bytes are `Nat`s in `[0, 255]`. -/
structure Reader where
  data : List Nat
  pos : Nat
  deriving DecidableEq, Repr

/-- Source `Reader::read_next`: yield the byte under the cursor and advance it,
failing with an out-of-bounds error at the end of the buffer. -/
def Reader.readNext (s : Reader) : Except Err (Nat × Reader) :=
  match s.data[s.pos]? with
  | some b => .ok (b, { s with pos := s.pos + 1 })
  | none => .error .oob

/-- Source `Reader::read_exact n`: yield the next `n` bytes and advance past them,
failing with an out-of-bounds error if fewer remain. -/
def Reader.readExact (s : Reader) (n : Nat) : Except Err (List Nat × Reader) :=
  if s.pos + n ≤ s.data.length then
    .ok ((s.data.drop s.pos).take n, { s with pos := s.pos + n })
  else .error .oob

/-- Modelled from the spec: the variable-length-quantity decoder of the
reader module (not among the sources; only its call sites are).  Reads
successive bytes, each contributing its low 7 bits, most-significant byte
first; a byte with its high bit set means more bytes follow; decoding stops
at the first byte with high bit clear, and fails with an out-of-bounds error
if the source is exhausted first.  The running value is `u32` state, so each
step is taken `% 2 ^ 32`.  Returns the value together with the count of
bytes consumed. -/
def decodeVarlenList : List Nat → Nat → Except Err (Nat × Nat)
  | [], _ => .error .oob
  | b :: rest, acc =>
    let acc := (acc * 128 + b % 128) % 2 ^ 32
    if b >>> 7 = 1 then
      match decodeVarlenList rest acc with
      | .ok (v, k) => .ok (v, k + 1)
      | .error e => .error e
    else .ok (acc, 1)

/-- Modelled from the spec: `decode_varlen` on the reader state — decode a
VLQ at the cursor and advance past its bytes (see `decodeVarlenList`). -/
def decodeVarlen (s : Reader) : Except Err (Nat × Reader) :=
  match decodeVarlenList (s.data.drop s.pos) 0 with
  | .ok (v, k) => .ok (v, { s with pos := s.pos + k })
  | .error e => .error e

/-- Modelled from the spec: `Reader::read_varlen_slice` of the missing reader
module — read a VLQ length and consume that many bytes, yielding them. -/
def Reader.readVarlenSlice (s : Reader) : Except Err (List Nat × Reader) := do
  let (n, s) ← decodeVarlen s
  s.readExact n

/-- Modelled from the spec: the `truncate` method of the byte-payload type
returned by `read_varlen_slice` (defined in the missing reader module).  It
removes `n` bytes from the end of the payload — the call site's comment reads
"discard the last 0xF7" and the spec reads "drop it from the payload". -/
def truncateEnd (xs : List Nat) (n : Nat) : List Nat :=
  xs.take (xs.length - n)

/-- Source `DataByte::new` / `TryFrom<u8> for DataByte`: valid iff in `[0x00, 0x7F]`. -/
def DataByte.new (b : Nat) : Except Err Nat :=
  if b ≤ 0x7F then .ok b else .error (.invalidDataByte b)

/-- The body of a channel-voice message (`VoiceEvent` in the sources), with
validated data bytes carried as plain `Nat`s. -/
inductive VoiceEvent
  | noteOff (note velocity : Nat)
  | noteOn (note velocity : Nat)
  | aftertouch (note velocity : Nat)
  | controlChange (controller value : Nat)
  | programChange (program : Nat)
  | channelPressureAfterTouch (velocity : Nat)
  | pitchBend (lsb msb : Nat)
  deriving DecidableEq, Repr

/-- Source `ChannelVoiceMessage`: a status byte plus the decoded voice event. -/
structure ChannelVoiceMessage where
  status : Nat
  event : VoiceEvent
  deriving DecidableEq, Repr

/-- Source `ChannelVoiceMessage::read`: decode the channel-voice body selected by
the status's high nibble.  `Note::from_databyte` validates via `DataByte`
(in the sources); `Velocity::new`, `Program::new` and `Controller::read` are
thin validated value types of the missing modules — Modelled from the spec:
their constructors validate the data-byte range `[0x00, 0x7F]`, and
`Controller::read` consumes two data bytes (controller, value).  Pitch bend
reads two raw bytes (lsb then msb) unchecked, as in the source. -/
def ChannelVoiceMessage.read (status : Nat) (s : Reader) :
    Except Err (ChannelVoiceMessage × Reader) := do
  match status >>> 4 with
  | 0x8 => do
    let (b1, s) ← s.readNext
    let note ← DataByte.new b1
    let (b2, s) ← s.readNext
    let vel ← DataByte.new b2
    pure (⟨status, .noteOff note vel⟩, s)
  | 0x9 => do
    let (key, s) ← s.readNext
    let (velocity, s) ← s.readNext
    let note ← DataByte.new key
    let vel ← DataByte.new velocity
    pure (⟨status, .noteOn note vel⟩, s)
  | 0xA => do
    let (b1, s) ← s.readNext
    let note ← DataByte.new b1
    let (b2, s) ← s.readNext
    let vel ← DataByte.new b2
    pure (⟨status, .aftertouch note vel⟩, s)
  | 0xB => do
    let (b1, s) ← s.readNext
    let c ← DataByte.new b1
    let (b2, s) ← s.readNext
    let v ← DataByte.new b2
    pure (⟨status, .controlChange c v⟩, s)
  | 0xC => do
    let (b1, s) ← s.readNext
    let p ← DataByte.new b1
    pure (⟨status, .programChange p⟩, s)
  | 0xD => do
    let (b1, s) ← s.readNext
    let v ← DataByte.new b1
    pure (⟨status, .channelPressureAfterTouch v⟩, s)
  | 0xE => do
    let (b, s) ← s.readExact 2
    pure (⟨status, .pitchBend (b.getD 0 0) (b.getD 1 0)⟩, s)
  | b => .error (.invalidStatusByte b)

/-- The four SMPTE frame rates of the MIDI specification (`SmpteFps`). -/
inductive SmpteFps
  | twentyFour
  | twentyFive
  | twentyNine
  | thirty
  deriving DecidableEq, Repr

/-- Source `SmpteFps::as_division`: the nominal integer rate used as a rate divisor
(drop-frame 29.97 reports 30 here). -/
def SmpteFps.asDivision : SmpteFps → Nat
  | .twentyFour => 24
  | .twentyFive => 25
  | .twentyNine => 30
  | .thirty => 30

/-- Source `SmpteFps::as_f64`: the precise frame rate, with the exact rational
`30000 / 1001` for the drop-frame case. -/
def SmpteFps.asRat : SmpteFps → ℚ
  | .twentyFour => 24
  | .twentyFive => 25
  | .twentyNine => 30000 / 1001
  | .thirty => 30

/-- Source `SmpteOffset`: an absolute SMPTE start-time stamp for a track. -/
structure SmpteOffset where
  fps : SmpteFps
  hour : Nat
  minute : Nat
  second : Nat
  frame : Nat
  subframe : Nat
  deriving DecidableEq, Repr

/-- Source `SmpteOffset::as_micros_with_override`: microseconds using a
caller-supplied frame rate instead of the offset's own. -/
def SmpteOffset.asMicrosWithOverride (o : SmpteOffset) (fps : SmpteFps) : ℚ :=
  (((o.hour * 3600 + o.minute * 60 + o.second) * 1000000 : Nat) : ℚ)
    + ((o.frame * 1000000 : Nat) : ℚ) / fps.asRat
    + ((o.subframe * 10000 : Nat) : ℚ) / fps.asRat

/-- Source `SmpteOffset::as_micros`: microseconds using the offset's own frame rate. -/
def SmpteOffset.asMicros (o : SmpteOffset) : ℚ :=
  (((o.hour * 3600 + o.minute * 60 + o.second) * 1000000 : Nat) : ℚ)
    + ((o.frame * 1000000 : Nat) : ℚ) / o.fps.asRat
    + ((o.subframe * 10000 : Nat) : ℚ) / o.fps.asRat

/-- The hour/minute/second/subframe cascade of `SmpteOffset::parse` after
the fps bits have been decoded. -/
def SmpteOffset.parseAfterFps (fps : SmpteFps) (data : List Nat) :
    Except SmpteError SmpteOffset :=
  let hour := data.getD 0 0 % 32
  if hour > 23 then .error (.hourOffset hour)
  else
    let minute := data.getD 1 0
    if minute > 59 then .error (.minuteOffset minute)
    else
      let second := data.getD 2 0
      if second > 59 then .error (.secondOffset second)
      else
        let frame := data.getD 3 0
        let subframe := data.getD 4 0
        if subframe > 99 then .error (.subframe subframe)
        else .ok ⟨fps, hour, minute, second, frame, subframe⟩

/-- Source `SmpteOffset::parse`: parse a 5-byte SMPTE offset payload,
validating fps bits, hour, minute, second and subframe in that order (the
frame byte is taken as-is). -/
def SmpteOffset.parse (data : List Nat) : Except SmpteError SmpteOffset :=
  if data.length ≠ 5 then .error (.length data.length)
  else
    let b0 := data.getD 0 0
    match b0 >>> 5 with
    | 0 => parseAfterFps .twentyFour data
    | 1 => parseAfterFps .twentyFive data
    | 2 => parseAfterFps .twentyNine data
    | 3 => parseAfterFps .thirty data
    | v => .error (.trackFrame v)

/-- Source `Tempo::new_from_bytes`: interpret (up to) the first three payload bytes
as a big-endian microseconds-per-quarter-note count. -/
def Tempo.newFromBytes (v : List Nat) : Nat :=
  v.getD 0 0 * 65536 + v.getD 1 0 * 256 + v.getD 2 0

/-- A decoded meta event (`MetaMessage`).  Payload dispatch by meta type is
part of the missing reader module — Modelled from the spec: Tempo (3
big-endian bytes), Time Signature, SMPTE Offset, track/device text captured
as byte spans, unrecognized types retained as opaque payload. -/
inductive MetaMessage
  | tempo (microsPerQuarterNote : Nat)
  | timeSignature (payload : List Nat)
  | smpteOffset (o : SmpteOffset)
  | trackName (payload : List Nat)
  | deviceName (payload : List Nat)
  | other (ty : Nat) (payload : List Nat)
  deriving DecidableEq, Repr

/-- Modelled from the spec: `MetaMessage::read` of the missing reader module.
Read one type byte, one VLQ length, then that many payload bytes, and
dispatch by type; the Tempo and SMPTE-offset payload decoders are the ones in
the sources.  Running status is untouched (the caller never passes it in). -/
def MetaMessage.read (s : Reader) : Except Err (MetaMessage × Reader) := do
  let (ty, s) ← s.readNext
  let (payload, s) ← s.readVarlenSlice
  match ty with
  | 0x51 => pure (.tempo (Tempo.newFromBytes payload), s)
  | 0x54 =>
    match SmpteOffset.parse payload with
    | .ok o => pure (.smpteOffset o, s)
    | .error e => .error (.smpte e)
  | 0x58 => pure (.timeSignature payload, s)
  | 0x03 => pure (.trackName payload, s)
  | 0x09 => pure (.deviceName payload, s)
  | _ => pure (.other ty payload, s)

/-- The message of one track event (`TrackMessage`). -/
inductive TrackMessage
  | channelVoice (m : ChannelVoiceMessage)
  | systemExclusive (data : List Nat)
  | meta (m : MetaMessage)
  deriving DecidableEq, Repr

/-- One track event: a delta-time plus its message (`TrackEvent`). -/
structure TrackEvent where
  deltaTime : Nat
  event : TrackMessage
  deriving DecidableEq, Repr

/-- Source `TrackEvent::read`: decode one event from a track body — the delta-time
VLQ, then the status-byte lookahead with the running-status state machine:
`0xF0` starts a sysex block (VLQ length, payload, last byte dropped when
non-empty), `0xFF` a meta event, a byte with high bit 1 becomes the new
running status, and a byte with high bit 0 rewinds the cursor and reuses the
stored running status, failing when none is stored. -/
def TrackEvent.read (s : Reader) (runningStatus : Option Nat) :
    Except Err (TrackEvent × Reader × Option Nat) := do
  let (deltaTime, s) ← decodeVarlen s
  let (nextEvent, s) ← s.readNext
  if nextEvent = 0xF0 then
    let (data, s) ← s.readVarlenSlice
    let data := if data.isEmpty then data else truncateEnd data 1
    pure (⟨deltaTime, .systemExclusive data⟩, s, runningStatus)
  else if nextEvent = 0xFF then
    let (m, s) ← MetaMessage.read s
    pure (⟨deltaTime, .meta m⟩, s, runningStatus)
  else
    if nextEvent >>> 7 = 1 then
      let rs := some nextEvent
      let (cv, s) ← ChannelVoiceMessage.read nextEvent s
      pure (⟨deltaTime, .channelVoice cv⟩, s, rs)
    else
      match runningStatus with
      | some prevStatus =>
        let s := { s with pos := s.pos - 1 }
        let (cv, s) ← ChannelVoiceMessage.read prevStatus s
        pure (⟨deltaTime, .channelVoice cv⟩, s, runningStatus)
      | none => .error .invalidMidiEvent

/-- Modelled from the spec: the per-track event decode loop (the track
chunk's `events()` iterator is in the missing reader module).  Decodes
events one at a time until the body is exhausted, threading the
running-status cell, which is constructed fresh per track body.  The fuel
bounds the iteration count by the body length; every successful event read
consumes at least one byte, so it never runs out on the loop's own. -/
def trackBodyEventsAux (fuel : Nat) (s : Reader) (rs : Option Nat) :
    Except Err (List TrackEvent) :=
  match fuel with
  | 0 => if s.data.length ≤ s.pos then .ok [] else .error .oob
  | fuel + 1 =>
    if s.data.length ≤ s.pos then .ok []
    else do
      let (ev, s, rs) ← TrackEvent.read s rs
      let rest ← trackBodyEventsAux fuel s rs
      pure (ev :: rest)

/-- Modelled from the spec: decode a whole track chunk body into its event
sequence, with a fresh running-status cell. -/
def trackBodyEvents (body : List Nat) : Except Err (List TrackEvent) :=
  trackBodyEventsAux (body.length + 1) ⟨body, 0⟩ none

/-- A playable event of the final file (`LiveEvent`): the track assembler
only ever produces channel-voice and system-exclusive events. -/
inductive LiveEvent
  | channelVoice (m : ChannelVoiceMessage)
  | systemExclusive (data : List Nat)
  deriving DecidableEq, Repr

/-- The side-channel record of a track (`TrackInfo`), carrying the fields
folded out of meta events.  The tempo defaults to 500000 µs per quarter
note.  The `TimeSignature` and text value types are not among the sources,
so their payloads are carried as raw byte spans. -/
structure TrackInfo where
  timeSignature : Option (List Nat)
  name : Option (List Nat)
  device : Option (List Nat)
  tempo : Nat
  smpteOffset : Option SmpteOffset
  deriving DecidableEq, Repr

/-- Source `TrackInfo::default()`: no metas seen, tempo 500000. -/
def TrackInfo.default : TrackInfo :=
  ⟨none, none, none, 500000, none⟩

/-- Modelled from the spec: `MetaMessage::adjust_track_info` (not among the
sources).  Folds one meta event into the track's `TrackInfo`:
tempo/time-signature/smpte-offset/name/device overwrite any previous value of
the same field (last write wins); other metas leave the record unchanged. -/
def adjustTrackInfo (m : MetaMessage) (i : TrackInfo) : TrackInfo :=
  match m with
  | .tempo t => { i with tempo := t }
  | .timeSignature p => { i with timeSignature := some p }
  | .smpteOffset o => { i with smpteOffset := some o }
  | .trackName p => { i with name := some p }
  | .deviceName p => { i with device := some p }
  | .other _ _ => i

/-- A finished track (`Track`): its info record plus the ordered
`(accumulated_ticks, LiveEvent)` pairs. -/
structure Track where
  info : TrackInfo
  events : List (Nat × LiveEvent)
  deriving DecidableEq, Repr

/-- The loop body of `Track::new`: thread the optional `u32` tick
accumulator (`None` until the first event; additions wrap `% 2 ^ 32`),
emit channel-voice and sysex messages with their accumulated tick, and fold
meta messages into the info record. -/
def Track.newAux : List TrackEvent → Option Nat → TrackInfo →
    List (Nat × LiveEvent) → Track
  | [], _, info, out => ⟨info, out⟩
  | e :: rest, tacc, info, out =>
    let acc :=
      match tacc with
      | some t => (t + e.deltaTime) % 2 ^ 32
      | none => e.deltaTime
    match e.event with
    | .channelVoice cv =>
      Track.newAux rest (some acc) info (out ++ [(acc, .channelVoice cv)])
    | .systemExclusive d =>
      Track.newAux rest (some acc) info (out ++ [(acc, .systemExclusive d)])
    | .meta m =>
      Track.newAux rest (some acc) (adjustTrackInfo m info) out

/-- Source `Track::new`: assemble a raw event sequence into a finished track. -/
def Track.new (events : List TrackEvent) : Track :=
  Track.newAux events none TrackInfo.default []

/-- The `tpqn` timing of a file header (`TicksPerQuarterNote`), stored as
its two big-endian bytes. -/
structure TicksPerQuarterNote where
  msb : Nat
  lsb : Nat
  deriving DecidableEq, Repr

/-- Source `TicksPerQuarterNote::ticks_per_quarter_note`: the big-endian `u16` with
its top bit masked off. -/
def TicksPerQuarterNote.ticksPerQuarterNote (t : TicksPerQuarterNote) : Nat :=
  (t.msb * 256 + t.lsb) % 32768

/-- The `smpte` timing of a file header (`SmpteHeader`). -/
structure SmpteHeader where
  fps : SmpteFps
  ticksPerFrame : Nat
  deriving DecidableEq, Repr

/-- The file-level timing mode (`Timing`). -/
inductive Timing
  | ticksPerQuarterNote (t : TicksPerQuarterNote)
  | smpte (h : SmpteHeader)
  deriving DecidableEq, Repr

/-- Source `CurrentTrack::new`, the timing-resolver half: resolve the track's
effective tempo (the file tempo when one is imposed, else the track's own),
and compute the µs-per-tick rate and the µs base offset for the file's
timing mode. -/
def trackRates (track : Track) (fileTempo : Option Nat) (timing : Timing) : ℚ × ℚ :=
  let trackTempo := fileTempo.getD track.info.tempo
  match timing with
  | .smpte v =>
    let ticksPerSecond := v.fps.asDivision * v.ticksPerFrame
    let microsPerTick := (1000000 : ℚ) / (ticksPerSecond : ℚ)
    let offsetInMicros :=
      match track.info.smpteOffset with
      | some offset => offset.asMicrosWithOverride v.fps
      | none => 0
    (microsPerTick, offsetInMicros)
  | .ticksPerQuarterNote tpqn =>
    let microsPerTick := (trackTempo : ℚ) / (tpqn.ticksPerQuarterNote : ℚ)
    let offsetInMicros :=
      match track.info.smpteOffset with
      | some offset => offset.asMicros
      | none => 0
    (microsPerTick, offsetInMicros)

/-- Source `CurrentTrack` as a value: the track's events converted to absolute
microsecond timestamps, `timestamp = ⌊µs_per_tick × accumulated_ticks +
offset⌋` (the `f64 as u64` cast clamps negatives to zero). -/
def convertTrack (track : Track) (fileTempo : Option Nat) (timing : Timing) :
    List (Nat × LiveEvent) :=
  let (microsPerTick, offsetInMicros) := trackRates track fileTempo timing
  track.events.map fun e =>
    ((⌊microsPerTick * (e.1 : ℚ) + offsetInMicros⌋).toNat, e.2)

/-- The loop of `TimedEventIterator::next`: emit the current track's events;
when it is exhausted, take the next track and emit its first event — if that
track has no first event the whole iteration ends (`next_track.next()?`). -/
def streamAux : List (Nat × LiveEvent) → List (List (Nat × LiveEvent)) →
    List (Nat × LiveEvent)
  | e :: cur, tracks => e :: streamAux cur tracks
  | [], [] => []
  | [], t :: tracks =>
    match t with
    | [] => []
    | e :: cur => e :: streamAux cur tracks
termination_by cur tracks => (tracks.length, cur.length)

/-- The three file topologies (`Format`). -/
inductive Format
  | singleMultiChannel (t : Track)
  | simultaneous (ts : List Track)
  | sequentiallyIndependent (ts : List Track)
  deriving DecidableEq, Repr

/-- A finished file (`MidiFile` / `ParsedMidiFile`): timing plus format. -/
structure MidiFile where
  timing : Timing
  format : Format
  deriving DecidableEq, Repr

/-- Source `MidiFile::into_events` via `TimedEventIterator::new` and the iterator
loop: the first track becomes the current track; for `SingleMultiChannel`
and `Simultaneous` the first/only track's tempo is imposed on every track,
for `SequentiallyIndependent` none is; zero tracks yield the empty stream. -/
def MidiFile.intoEvents (f : MidiFile) : List (Nat × LiveEvent) :=
  match f.format with
  | .sequentiallyIndependent [] => []
  | .sequentiallyIndependent (t :: ts) =>
    streamAux (convertTrack t none f.timing)
      (ts.map fun u => convertTrack u none f.timing)
  | .simultaneous [] => []
  | .simultaneous (t :: ts) =>
    let fileTempo := some t.info.tempo
    streamAux (convertTrack t fileTempo f.timing)
      (ts.map fun u => convertTrack u fileTempo f.timing)
  | .singleMultiChannel t =>
    streamAux (convertTrack t (some t.info.tempo) f.timing) []

/-- The declared format of a header chunk (`RawFormat`), carrying the
declared track count for formats 1 and 2. -/
inductive RawFormat
  | singleMultiChannel
  | simultaneous (numTracks : Nat)
  | sequentiallyIndependent (numTracks : Nat)
  deriving DecidableEq, Repr

/-- The format tag without its payload (`FormatType`). -/
inductive FormatType
  | singleMultiChannel
  | simultaneous
  | sequentiallyIndependent
  deriving DecidableEq, Repr

/-- Source `RawFormat::format_type`. -/
def RawFormat.formatType : RawFormat → FormatType
  | .singleMultiChannel => .singleMultiChannel
  | .simultaneous _ => .simultaneous
  | .sequentiallyIndependent _ => .sequentiallyIndependent

/-- A parsed header chunk (`RawHeaderChunk`): declared format plus timing. -/
structure RawHeaderChunk where
  format : RawFormat
  timing : Timing
  deriving DecidableEq, Repr

/-- The builder's format stage (`FormatStage`). -/
inductive FormatStage
  | unknown
  | knownFormat (f : RawFormat)
  | knownTracks (ts : List Track)
  | formatted (f : Format)
  deriving DecidableEq, Repr

/-- The chunk-to-file builder (`MidiFileBuilder`): format stage, recorded
timing, and the pass-through list of unknown chunks. -/
structure MidiFileBuilder where
  format : FormatStage
  timing : Option Timing
  unknownChunks : List (List Nat)
  deriving DecidableEq, Repr

/-- Source `MidiFileBuilder::default()`. -/
def MidiFileBuilder.default : MidiFileBuilder :=
  ⟨.unknown, none, []⟩

/-- One parse event handed to the builder (`ChunkEvent`): a header chunk, a
track chunk (carrying its raw body bytes), an unknown chunk, or the
end-of-stream signal. -/
inductive ChunkEvent
  | header (h : RawHeaderChunk)
  | track (body : List Nat)
  | unknown (data : List Nat)
  | eof
  deriving DecidableEq, Repr

/-- Source `MidiFileBuilder::handle_chunk`, with the source's mutation order made
explicit: the returned builder is the receiver's state after the call, and
the optional error is the `Err` return value (every error return in the
source happens before any mutation). -/
def MidiFileBuilder.handleChunk (b : MidiFileBuilder) (chunk : ChunkEvent) :
    MidiFileBuilder × Option Err :=
  match chunk with
  | .header h =>
    if b.timing.isSome then (b, some (.chunk .duplicateHeader))
    else
      match b.format with
      | .unknown =>
        ({ b with format := .knownFormat h.format, timing := some h.timing }, none)
      | .knownFormat _ => (b, some (.chunk .duplicateFormat))
      | .formatted _ => (b, some (.chunk .duplicateFormat))
      | .knownTracks tracks =>
        match h.format.formatType with
        | .simultaneous =>
          ({ b with format := .formatted (.simultaneous tracks),
                    timing := some h.timing }, none)
        | .singleMultiChannel =>
          match tracks with
          | [track] =>
            ({ b with format := .formatted (.singleMultiChannel track),
                      timing := some h.timing }, none)
          | _ => (b, some (.chunk .multipleTracksForSingleMultiChannel))
        | .sequentiallyIndependent =>
          ({ b with format := .formatted (.sequentiallyIndependent tracks),
                    timing := some h.timing }, none)
  | .track body =>
    match trackBodyEvents body with
    | .error e => (b, some e)
    | .ok events =>
      let track := Track.new events
      match b.format with
      | .unknown => ({ b with format := .knownTracks [track] }, none)
      | .knownFormat rf =>
        match rf.formatType with
        | .simultaneous =>
          ({ b with format := .formatted (.simultaneous [track]) }, none)
        | .singleMultiChannel =>
          ({ b with format := .formatted (.singleMultiChannel track) }, none)
        | .sequentiallyIndependent =>
          ({ b with format := .formatted (.sequentiallyIndependent [track]) }, none)
      | .knownTracks tracks =>
        ({ b with format := .knownTracks (tracks ++ [track]) }, none)
      | .formatted f =>
        match f with
        | .sequentiallyIndependent tracks =>
          ({ b with format := .formatted (.sequentiallyIndependent (tracks ++ [track])) },
            none)
        | .singleMultiChannel _ =>
          (b, some (.chunk .multipleTracksForSingleMultiChannel))
        | .simultaneous tracks =>
          ({ b with format := .formatted (.simultaneous (tracks ++ [track])) }, none)
  | .unknown data => ({ b with unknownChunks := b.unknownChunks ++ [data] }, none)
  | .eof => (b, some .eof)

/-! ## Specification-side helper definitions

Definitions in this block follow the specification's words; they give the
reference shapes the source functions are compared against. -/

/-- The fps selected by the 2-bit frame-rate code of an SMPTE offset's first
byte (spec: 00=24, 01=25, 10=29.97, 11=30). -/
def fpsOfBits : Nat → SmpteFps
  | 0 => .twentyFour
  | 1 => .twentyFive
  | 2 => .twentyNine
  | _ => .thirty

/-- The payload the claim assigns to a sysex block: the consumed bytes, with
the final byte removed if and only if it equals the 0xF7 terminator. -/
def claimedSysExPayload (consumed : List Nat) : List Nat :=
  if consumed.getLast? = some 0xF7 then consumed.dropLast else consumed

/-- Reference form of the tick accumulation of the track assembler (spec:
the accumulator starts at the first event's own delta; each emitted
channel-voice or sysex message carries the running sum of the delta-times up
to and including its own; meta messages accumulate but emit nothing). -/
def assembleSpec : Nat → List TrackEvent → List (Nat × LiveEvent)
  | _, [] => []
  | t, e :: rest =>
    match e.event with
    | .channelVoice cv =>
      (t + e.deltaTime, .channelVoice cv) :: assembleSpec (t + e.deltaTime) rest
    | .systemExclusive d =>
      (t + e.deltaTime, .systemExclusive d) :: assembleSpec (t + e.deltaTime) rest
    | .meta _ => assembleSpec (t + e.deltaTime) rest

/-- The info-record step of the track assembler: metas are folded into the
record, non-meta events leave it unchanged. -/
def infoStep (i : TrackInfo) (e : TrackEvent) : TrackInfo :=
  match e.event with
  | .meta m => adjustTrackInfo m i
  | _ => i

/-- The tempo payload of an event, when it is a Tempo meta. -/
def tempoMetaOf (e : TrackEvent) : Option Nat :=
  match e.event with
  | .meta (.tempo t) => some t
  | _ => none

/-- The offset payload of an event, when it is an SMPTE-offset meta. -/
def smpteMetaOf (e : TrackEvent) : Option SmpteOffset :=
  match e.event with
  | .meta (.smpteOffset o) => some o
  | _ => none

/-- The name payload of an event, when it is a track-name meta. -/
def nameMetaOf (e : TrackEvent) : Option (List Nat) :=
  match e.event with
  | .meta (.trackName p) => some p
  | _ => none

/-- The sum of the delta-times of an event sequence. -/
def sumDeltas (evs : List TrackEvent) : Nat :=
  (evs.map (·.deltaTime)).sum

/-- Reference form of the projector loop: the current track's remaining
events, then the following tracks concatenated in stored order, stopping at
the first empty track. -/
def concatUntilEmpty : List (List (Nat × LiveEvent)) → List (Nat × LiveEvent)
  | [] => []
  | [] :: _ => []
  | (e :: cur) :: ts => e :: (cur ++ concatUntilEmpty ts)

/-- A track with its resolved tempo replaced by the given one (used to state
the conductor-track rule). -/
def Track.withTempo (tempo : Nat) (tr : Track) : Track :=
  { tr with info := { tr.info with tempo := tempo } }

/-! ## Theorems -/

/-- C6.  For every parsed SMPTE offset, its microsecond value equals
`(hour·3600 + minute·60 + second)·1e6 + frame·1e6/fps + subframe·1e4/fps`,
where the drop-frame case (`TwentyNine`) uses the exact rational fps
`30000/1001` rather than the nominal 30; for `fps = TwentyNine, hour = 23,
minute = 59, second = 59, frame = 28, subframe = 99`, the value is within
1 µs of `86,399,000,000 + 28·1e6/29.97 + 99·1e4/29.97`. -/
theorem smpteOffset_micros_formula :
    SmpteFps.asRat .twentyNine = 30000 / 1001 ∧
    SmpteFps.asRat .twentyNine ≠ 30 ∧
    (∀ o : SmpteOffset,
      o.asMicros = ((o.hour : ℚ) * 3600 + (o.minute : ℚ) * 60 + (o.second : ℚ)) * 1000000
        + (o.frame : ℚ) * 1000000 / o.fps.asRat
        + (o.subframe : ℚ) * 10000 / o.fps.asRat) ∧
    |SmpteOffset.asMicros ⟨.twentyNine, 23, 59, 59, 28, 99⟩
      - (86399000000 + 28 * 1000000 / (2997 / 100) + 99 * 10000 / (2997 / 100))| < 1 := by
  refine ⟨rfl, by norm_num [SmpteFps.asRat], fun o => ?_,
    by norm_num [SmpteOffset.asMicros, SmpteFps.asRat, abs_lt]⟩
  unfold SmpteOffset.asMicros
  push_cast
  ring

/-- Normal form of `SmpteOffset.parse` on a 5-byte input: the validation
cascade in source order. -/
theorem smpteOffset_parse_five (b0 b1 b2 b3 b4 : Nat) :
    SmpteOffset.parse [b0, b1, b2, b3, b4] =
      if 4 ≤ b0 >>> 5 then .error (.trackFrame (b0 >>> 5))
      else if b0 % 32 > 23 then .error (.hourOffset (b0 % 32))
      else if b1 > 59 then .error (.minuteOffset b1)
      else if b2 > 59 then .error (.secondOffset b2)
      else if b4 > 99 then .error (.subframe b4)
      else .ok ⟨fpsOfBits (b0 >>> 5), b0 % 32, b1, b2, b3, b4⟩ := by
  unfold SmpteOffset.parse
  have h5 : ([b0, b1, b2, b3, b4] : List Nat).length = 5 := rfl
  rw [if_neg (by simp)]
  rcases hv : b0 >>> 5 with _ | _ | _ | _ | v <;>
    simp [hv, SmpteOffset.parseAfterFps, fpsOfBits, List.getD]

/-- C7.  For every 5-byte SMPTE offset input, parsing validates the fps
bits, then hour (≤ 23), then minute (≤ 59), then second (≤ 59), then
subframe (≤ 99), with the frame byte never checked; the first out-of-range
field in that order determines the field-specific error (each error
characterization requires every earlier field to be in range), and an input
whose length is not 5 fails with a length error. -/
theorem smpteOffset_parse_field_order :
    (∀ l : List Nat, l.length ≠ 5 → SmpteOffset.parse l = .error (.length l.length)) ∧
    (∀ b0 b1 b2 b3 b4 h : Nat,
      SmpteOffset.parse [b0, b1, b2, b3, b4] = .error (.hourOffset h) ↔
        b0 >>> 5 ≤ 3 ∧ 23 < b0 % 32 ∧ h = b0 % 32) ∧
    (∀ b0 b1 b2 b3 b4 m : Nat,
      SmpteOffset.parse [b0, b1, b2, b3, b4] = .error (.minuteOffset m) ↔
        b0 >>> 5 ≤ 3 ∧ b0 % 32 ≤ 23 ∧ 59 < b1 ∧ m = b1) ∧
    (∀ b0 b1 b2 b3 b4 sec : Nat,
      SmpteOffset.parse [b0, b1, b2, b3, b4] = .error (.secondOffset sec) ↔
        b0 >>> 5 ≤ 3 ∧ b0 % 32 ≤ 23 ∧ b1 ≤ 59 ∧ 59 < b2 ∧ sec = b2) ∧
    (∀ b0 b1 b2 b3 b4 sf : Nat,
      SmpteOffset.parse [b0, b1, b2, b3, b4] = .error (.subframe sf) ↔
        b0 >>> 5 ≤ 3 ∧ b0 % 32 ≤ 23 ∧ b1 ≤ 59 ∧ b2 ≤ 59 ∧ 99 < b4 ∧ sf = b4) ∧
    (∀ b0 b1 b2 b3 b3' b4 : Nat,
      ((SmpteOffset.parse [b0, b1, b2, b3, b4]).isOk =
        (SmpteOffset.parse [b0, b1, b2, b3', b4]).isOk) ∧
      ∀ o, SmpteOffset.parse [b0, b1, b2, b3, b4] = .ok o →
        o.frame = b3 ∧
          SmpteOffset.parse [b0, b1, b2, b3', b4] = .ok { o with frame := b3' }) := by
  refine ⟨fun l hl => ?_, ?_, ?_, ?_, ?_, ?_⟩
  · unfold SmpteOffset.parse
    rw [if_pos hl]
  · intro b0 b1 b2 b3 b4 h
    rw [smpteOffset_parse_five]
    split_ifs <;> simp_all <;> omega
  · intro b0 b1 b2 b3 b4 m
    rw [smpteOffset_parse_five]
    split_ifs <;> simp_all <;> omega
  · intro b0 b1 b2 b3 b4 sec
    rw [smpteOffset_parse_five]
    split_ifs <;> simp_all <;> omega
  · intro b0 b1 b2 b3 b4 sf
    rw [smpteOffset_parse_five]
    split_ifs <;> simp_all <;> omega
  · intro b0 b1 b2 b3 b3' b4
    rw [smpteOffset_parse_five, smpteOffset_parse_five]
    split_ifs <;> simp_all [Except.isOk, Except.toBool]

/-- Witness for C7: a 2-byte input fails with the length error, and an
input violating hour, minute, second and subframe at once reports only
the hour. -/
theorem smpteOffset_parse_field_order_witness :
    SmpteOffset.parse [0x01, 0x02] = .error (.length 2) ∧
    SmpteOffset.parse [0x18, 60, 60, 0, 100] = .error (.hourOffset 24) :=
  ⟨smpteOffset_parse_field_order.1 [0x01, 0x02] (by decide),
   (smpteOffset_parse_field_order.2.1 0x18 60 60 0 100 24).2 (by decide)⟩

/-- C9.  Handling a Header chunk fails with `DuplicateHeader` whenever a
timing value has already been recorded (so a header never succeeds twice:
any successful header records a timing value), and fails with
`DuplicateFormat` when no timing is recorded but the format stage is already
`KnownFormat` or `Formatted`; consequently, once the format is `Formatted`,
no further header is ever accepted. -/
theorem builder_header_duplicate_rules :
    (∀ (b : MidiFileBuilder) (h : RawHeaderChunk),
      b.timing.isSome = true →
        b.handleChunk (.header h) = (b, some (.chunk .duplicateHeader))) ∧
    (∀ (b : MidiFileBuilder) (h : RawHeaderChunk),
      b.timing = none →
        ((∃ rf, b.format = .knownFormat rf) ∨ (∃ f, b.format = .formatted f)) →
        b.handleChunk (.header h) = (b, some (.chunk .duplicateFormat))) ∧
    (∀ (b : MidiFileBuilder) (h : RawHeaderChunk) (f : Format),
      b.format = .formatted f → (b.handleChunk (.header h)).2 ≠ none) ∧
    (∀ (b b' : MidiFileBuilder) (h : RawHeaderChunk),
      b.handleChunk (.header h) = (b', none) →
        ∀ h', (b'.handleChunk (.header h')).2 ≠ none) := by
  refine ⟨fun b h ht => ?_, fun b h ht hf => ?_, fun b h f hf => ?_, fun b b' h hok h' => ?_⟩
  · simp [MidiFileBuilder.handleChunk, ht]
  · rcases hf with ⟨rf, hfmt⟩ | ⟨f, hfmt⟩ <;>
      simp [MidiFileBuilder.handleChunk, ht, hfmt]
  · cases hT : b.timing with
    | none => simp [MidiFileBuilder.handleChunk, hT, hf]
    | some t => simp [MidiFileBuilder.handleChunk, hT, hf]
  · have hb' : b'.timing.isSome = true := by
      unfold MidiFileBuilder.handleChunk at hok
      repeat' split at hok
      all_goals simp_all [Prod.mk.injEq]
      all_goals (obtain ⟨rfl, -⟩ := hok; simp)
    simp [MidiFileBuilder.handleChunk, hb']

/-- Witness for C9: a builder that already recorded a timing rejects a
header with `DuplicateHeader`, and one in the `Formatted` stage rejects
every header. -/
theorem builder_header_duplicate_rules_witness :
    MidiFileBuilder.handleChunk
        ⟨.unknown, some (.ticksPerQuarterNote ⟨0, 96⟩), []⟩
        (.header ⟨.singleMultiChannel, .ticksPerQuarterNote ⟨0, 96⟩⟩) =
      (⟨.unknown, some (.ticksPerQuarterNote ⟨0, 96⟩), []⟩,
        some (.chunk .duplicateHeader)) ∧
    (MidiFileBuilder.handleChunk
        ⟨.formatted (.simultaneous []), none, []⟩
        (.header ⟨.singleMultiChannel, .ticksPerQuarterNote ⟨0, 96⟩⟩)).2 ≠ none :=
  ⟨builder_header_duplicate_rules.1 _ _ rfl,
   builder_header_duplicate_rules.2.2.1 _ _ (.simultaneous []) rfl⟩

/-- C10.  Whenever `handle_chunk` returns an error, the builder's observable
state — format stage, recorded timing and unknown-chunk list — is exactly
what it was before the call. -/
theorem builder_error_leaves_state :
    ∀ (b : MidiFileBuilder) (c : ChunkEvent) (e : Err),
      (b.handleChunk c).2 = some e → (b.handleChunk c).1 = b := by
  intro b c e
  unfold MidiFileBuilder.handleChunk
  rcases c with hc | body | d | _ <;> (repeat' split) <;> simp

/-- Witness for C10: the end-of-stream signal errors and leaves the fresh
builder untouched. -/
theorem builder_error_leaves_state_witness :
    (MidiFileBuilder.handleChunk ⟨.unknown, none, []⟩ .eof).1 = ⟨.unknown, none, []⟩ :=
  builder_error_leaves_state ⟨.unknown, none, []⟩ .eof .eof rfl

/-- Computation rule: binding a successful `Except` applies the
continuation. -/
theorem except_ok_bind {α β ε : Type} (a : α) (f : α → Except ε β) :
    (Except.ok a : Except ε α) >>= f = f a := rfl

/-- Computation rule: binding a failed `Except` propagates the error. -/
theorem except_error_bind {α β ε : Type} (e : ε) (f : α → Except ε β) :
    (Except.error e : Except ε α) >>= f = .error e := rfl

/-- Computation rule: `pure` into `Except` is `ok`. -/
theorem except_pure_eq {α ε : Type} (a : α) : (pure a : Except ε α) = .ok a := rfl

/-- Computation rule: mapping over a successful `Except`. -/
theorem except_map_ok {α β ε : Type} (f : α → β) (a : α) :
    Except.map f (.ok a : Except ε α) = .ok (f a) := rfl

/-- Computation rule: mapping over a failed `Except`. -/
theorem except_map_error {α β ε : Type} (f : α → β) (e : ε) :
    Except.map f (.error e : Except ε α) = .error e := rfl

/-- The sysex branch of the event reader always keeps all but the last
consumed byte. -/
theorem sysex_truncate_eq_dropLast (xs : List Nat) :
    (if xs.isEmpty then xs else truncateEnd xs 1) = xs.dropLast := by
  cases xs with
  | nil => rfl
  | cons a l => simp [truncateEnd, List.dropLast_eq_take]

/-- C1, counterexample to the claim as stated.  On the track-body event
`F0 02 43 10` the consumed bytes are `[0x43, 0x10]`, whose final byte is not
`0xF7`, so the claim requires the payload `[0x43, 0x10]`; the decoder
produces `[0x43]`, dropping the final byte regardless of its value. -/
theorem sysex_terminator_not_checked :
    TrackEvent.read ⟨[0x00, 0xF0, 0x02, 0x43, 0x10], 0⟩ none =
      .ok (⟨0, .systemExclusive [0x43]⟩, ⟨[0x00, 0xF0, 0x02, 0x43, 0x10], 5⟩, none) ∧
    claimedSysExPayload [0x43, 0x10] = [0x43, 0x10] ∧
    ([0x43] : List Nat) ≠ [0x43, 0x10] :=
  ⟨rfl, by decide, by decide⟩

/-- C1 as amended.  For every track-body event that begins with byte `0xF0`,
the decoder reads a VLQ length, consumes that many bytes, and the resulting
SystemExclusive payload equals those consumed bytes with the final byte
removed whenever at least one byte was consumed, regardless of that byte's
value; the other consumed bytes are retained in order, and the running
status is untouched. -/
theorem sysex_payload_drops_last :
    ∀ (data : List Nat) (pos : Nat) (rs : Option Nat) (delta : Nat) (s1 : Reader)
      (n : Nat) (s2 : Reader) (consumed : List Nat) (s3 : Reader),
    decodeVarlen ⟨data, pos⟩ = .ok (delta, s1) →
    s1.data[s1.pos]? = some 0xF0 →
    decodeVarlen { s1 with pos := s1.pos + 1 } = .ok (n, s2) →
    s2.readExact n = .ok (consumed, s3) →
    TrackEvent.read ⟨data, pos⟩ rs =
      .ok (⟨delta, .systemExclusive consumed.dropLast⟩, s3, rs) := by
  intro data pos rs delta s1 n s2 consumed s3 h1 h2 h3 h4
  unfold TrackEvent.read
  rw [h1]
  simp only [except_ok_bind, Reader.readNext, h2, Reader.readVarlenSlice, h3, h4,
    except_pure_eq, sysex_truncate_eq_dropLast, if_pos]

/-- Witness for C1: the sysex event `F0 03 43 10 F7` yields the payload
`[0x43, 0x10]` with the trailing `0xF7` dropped. -/
theorem sysex_payload_drops_last_witness :
    TrackEvent.read ⟨[0x00, 0xF0, 0x03, 0x43, 0x10, 0xF7], 0⟩ none =
      .ok (⟨0, .systemExclusive [0x43, 0x10]⟩,
        ⟨[0x00, 0xF0, 0x03, 0x43, 0x10, 0xF7], 6⟩, none) :=
  sysex_payload_drops_last [0x00, 0xF0, 0x03, 0x43, 0x10, 0xF7] 0 none 0
    ⟨[0x00, 0xF0, 0x03, 0x43, 0x10, 0xF7], 1⟩ 3
    ⟨[0x00, 0xF0, 0x03, 0x43, 0x10, 0xF7], 3⟩ [0x43, 0x10, 0xF7]
    ⟨[0x00, 0xF0, 0x03, 0x43, 0x10, 0xF7], 6⟩ rfl rfl rfl rfl

/-- C2.  After the delta-time VLQ, a first byte that is neither `0xF0` nor
`0xFF` drives the running-status state machine: with high bit 1 it becomes
the new running status and the event's status byte; with high bit 0 the
cursor is rewound by one byte (the channel-voice body is decoded starting at
that byte's own position) reusing the previously stored running status, and
with no stored running status the reader fails with the invalid-event
error. -/
theorem running_status_state_machine :
    ∀ (data : List Nat) (pos : Nat) (rs : Option Nat) (delta : Nat) (s1 : Reader) (b : Nat),
    decodeVarlen ⟨data, pos⟩ = .ok (delta, s1) →
    s1.data[s1.pos]? = some b →
    b ≠ 0xF0 → b ≠ 0xFF →
    TrackEvent.read ⟨data, pos⟩ rs =
      (if b >>> 7 = 1 then
        (ChannelVoiceMessage.read b { s1 with pos := s1.pos + 1 }).map
          (fun r => (⟨delta, .channelVoice r.1⟩, r.2, some b))
      else
        match rs with
        | some prev =>
          (ChannelVoiceMessage.read prev s1).map
            (fun r => (⟨delta, .channelVoice r.1⟩, r.2, some prev))
        | none => .error .invalidMidiEvent) := by
  intro data pos rs delta s1 b h1 h2 hF0 hFF
  unfold TrackEvent.read
  rw [h1]
  simp only [except_ok_bind, Reader.readNext, h2, if_neg hF0, if_neg hFF]
  split
  · cases hcv : ChannelVoiceMessage.read b { s1 with pos := s1.pos + 1 } <;>
      simp [hcv, except_ok_bind, except_error_bind, except_pure_eq,
        except_map_ok, except_map_error]
  · cases rs with
    | none => rfl
    | some prev =>
      have hpos : s1.pos + 1 - 1 = s1.pos := rfl
      cases hcv : ChannelVoiceMessage.read prev s1 <;>
        simp [hcv, hpos, except_ok_bind, except_error_bind, except_pure_eq,
          except_map_ok, except_map_error]

/-- Witness for C2: the body `[0x3C, 0x64]` after a zero delta, with stored
running status `0x90`, decodes as a channel-voice event at the rewound
position with status `0x90`. -/
theorem running_status_state_machine_witness :
    TrackEvent.read ⟨[0x00, 0x3C, 0x64], 0⟩ (some 0x90) =
      (ChannelVoiceMessage.read 0x90 ⟨[0x00, 0x3C, 0x64], 1⟩).map
        (fun r => (⟨0, .channelVoice r.1⟩, r.2, some 0x90)) := by
  have h := running_status_state_machine [0x00, 0x3C, 0x64] 0 (some 0x90) 0
    ⟨[0x00, 0x3C, 0x64], 1⟩ 0x3C rfl rfl (by decide) (by decide)
  rw [if_neg (by decide)] at h
  exact h

/-- The info record built by the assembler loop is the fold of `infoStep`
over the events, whatever the accumulator state. -/
theorem track_newAux_info (evs : List TrackEvent) :
    ∀ (tacc : Option Nat) (info : TrackInfo) (out : List (Nat × LiveEvent)),
      (Track.newAux evs tacc info out).info = evs.foldl infoStep info := by
  induction evs with
  | nil => intro tacc info out; rfl
  | cons e rest ih =>
    intro tacc info out
    cases he : e.event <;>
      simp [Track.newAux, he, ih, infoStep, List.foldl_cons]

/-- Without `u32` wrap-around, the assembler loop on an already-started
accumulator produces exactly the running-sum event list of `assembleSpec`
appended to the output so far. -/
theorem track_newAux_events (evs : List TrackEvent) :
    ∀ (t : Nat) (info : TrackInfo) (out : List (Nat × LiveEvent)),
      t + sumDeltas evs < 2 ^ 32 →
      (Track.newAux evs (some t) info out).events = out ++ assembleSpec t evs := by
  induction evs with
  | nil => intro t info out ht; simp [Track.newAux, assembleSpec]
  | cons e rest ih =>
    intro t info out ht
    have hsum : e.deltaTime + sumDeltas rest = sumDeltas (e :: rest) := by
      simp [sumDeltas]
    have hlt : t + e.deltaTime < 2 ^ 32 := by omega
    have hmod : (t + e.deltaTime) % 2 ^ 32 = t + e.deltaTime := Nat.mod_eq_of_lt hlt
    have hrest : (t + e.deltaTime) + sumDeltas rest < 2 ^ 32 := by omega
    cases he : e.event with
    | channelVoice cv =>
      simp only [Track.newAux, he]
      rw [hmod, ih _ info _ hrest]
      simp [assembleSpec, he]
    | systemExclusive d =>
      simp only [Track.newAux, he]
      rw [hmod, ih _ info _ hrest]
      simp [assembleSpec, he]
    | meta m =>
      simp only [Track.newAux, he]
      rw [hmod, ih _ _ _ hrest]
      simp [assembleSpec, he]

/-- Without `u32` wrap-around, `Track::new` produces the running-sum event
list of `assembleSpec` started at zero. -/
theorem track_new_events (evs : List TrackEvent) (h : sumDeltas evs < 2 ^ 32) :
    (Track.new evs).events = assembleSpec 0 evs := by
  cases evs with
  | nil => rfl
  | cons e rest =>
    have hsum : e.deltaTime + sumDeltas rest = sumDeltas (e :: rest) := by
      simp [sumDeltas]
    have hrest : e.deltaTime + sumDeltas rest < 2 ^ 32 := by omega
    cases he : e.event <;>
      simp [Track.new, Track.newAux, he, track_newAux_events _ _ _ _ hrest,
        assembleSpec]

/-- Prepending an element shifts the defaulted last element of a list. -/
theorem getLast?_cons_getD {α : Type} (l : List α) :
    ∀ (x d : α), ((x :: l).getLast?).getD d = (l.getLast?).getD x := by
  induction l with
  | nil => intro x d; rfl
  | cons y l ih =>
    intro x d
    rw [List.getLast?_cons_cons, ih y d, ih y x]

/-- The tempo field after the info fold is the last Tempo meta's value, or
the incoming value when there is none. -/
theorem foldl_infoStep_tempo (evs : List TrackEvent) :
    ∀ i : TrackInfo,
      (evs.foldl infoStep i).tempo = ((evs.filterMap tempoMetaOf).getLast?).getD i.tempo := by
  induction evs with
  | nil => intro i; rfl
  | cons e rest ih =>
    intro i
    rw [List.foldl_cons]
    cases he : e.event with
    | meta m =>
      cases m <;>
        simp_all [infoStep, adjustTrackInfo, tempoMetaOf, getLast?_cons_getD]
    | channelVoice cv => simp_all [infoStep, tempoMetaOf]
    | systemExclusive d => simp_all [infoStep, tempoMetaOf]

/-- The SMPTE-offset field after the info fold is the last SMPTE-offset
meta's value, or the incoming value when there is none. -/
theorem foldl_infoStep_smpte (evs : List TrackEvent) :
    ∀ i : TrackInfo,
      (evs.foldl infoStep i).smpteOffset =
        (((evs.filterMap smpteMetaOf).map some).getLast?).getD i.smpteOffset := by
  induction evs with
  | nil => intro i; rfl
  | cons e rest ih =>
    intro i
    rw [List.foldl_cons]
    cases he : e.event with
    | meta m =>
      cases m <;>
        simp_all [infoStep, adjustTrackInfo, smpteMetaOf, getLast?_cons_getD]
    | channelVoice cv => simp_all [infoStep, smpteMetaOf]
    | systemExclusive d => simp_all [infoStep, smpteMetaOf]

/-- The name field after the info fold is the last track-name meta's value,
or the incoming value when there is none. -/
theorem foldl_infoStep_name (evs : List TrackEvent) :
    ∀ i : TrackInfo,
      (evs.foldl infoStep i).name =
        (((evs.filterMap nameMetaOf).map some).getLast?).getD i.name := by
  induction evs with
  | nil => intro i; rfl
  | cons e rest ih =>
    intro i
    rw [List.foldl_cons]
    cases he : e.event with
    | meta m =>
      cases m <;>
        simp_all [infoStep, adjustTrackInfo, nameMetaOf, getLast?_cons_getD]
    | channelVoice cv => simp_all [infoStep, nameMetaOf]
    | systemExclusive d => simp_all [infoStep, nameMetaOf]

/-- The info record of `Track::new` is the fold of the meta events over the
default record. -/
theorem track_new_info (evs : List TrackEvent) :
    (Track.new evs).info = evs.foldl infoStep TrackInfo.default :=
  track_newAux_info evs none TrackInfo.default []

/-- C8.  The track assembler's accumulator tags each emitted channel-voice
or sysex message with the sum of the delta-times of the events up to and
including its own (the first event's accumulated value is its own delta),
emitting them in input order; meta messages are never emitted and instead
overwrite the corresponding `TrackInfo` field, so repeated
tempo/SMPTE-offset/name metas leave only the last value.  The events part
assumes the tick sum stays below `2 ^ 32` (the accumulator is a `u32`). -/
theorem track_assembler_accumulates :
    (∀ evs : List TrackEvent, sumDeltas evs < 2 ^ 32 →
      (Track.new evs).events = assembleSpec 0 evs) ∧
    (∀ evs : List TrackEvent,
      (Track.new evs).info.tempo =
        ((evs.filterMap tempoMetaOf).getLast?).getD 500000) ∧
    (∀ evs : List TrackEvent,
      (Track.new evs).info.smpteOffset =
        (((evs.filterMap smpteMetaOf).map some).getLast?).getD none) ∧
    (∀ evs : List TrackEvent,
      (Track.new evs).info.name =
        (((evs.filterMap nameMetaOf).map some).getLast?).getD none) := by
  refine ⟨track_new_events, fun evs => ?_, fun evs => ?_, fun evs => ?_⟩
  · rw [track_new_info, foldl_infoStep_tempo]; rfl
  · rw [track_new_info, foldl_infoStep_smpte]; rfl
  · rw [track_new_info, foldl_infoStep_name]; rfl

/-- Witness for C8: a track with two tempo metas around two channel-voice
events accumulates ticks 10 and 30 and keeps only the last tempo. -/
theorem track_assembler_accumulates_witness :
    sumDeltas [⟨0, .meta (.tempo 600000)⟩,
      ⟨10, .channelVoice ⟨0x90, .noteOn 60 100⟩⟩,
      ⟨20, .channelVoice ⟨0x80, .noteOff 60 0⟩⟩,
      ⟨5, .meta (.tempo 400000)⟩] < 2 ^ 32 ∧
    (Track.new [⟨0, .meta (.tempo 600000)⟩,
      ⟨10, .channelVoice ⟨0x90, .noteOn 60 100⟩⟩,
      ⟨20, .channelVoice ⟨0x80, .noteOff 60 0⟩⟩,
      ⟨5, .meta (.tempo 400000)⟩]).events =
      assembleSpec 0 [⟨0, .meta (.tempo 600000)⟩,
        ⟨10, .channelVoice ⟨0x90, .noteOn 60 100⟩⟩,
        ⟨20, .channelVoice ⟨0x80, .noteOff 60 0⟩⟩,
        ⟨5, .meta (.tempo 400000)⟩] ∧
    (Track.new [⟨0, .meta (.tempo 600000)⟩,
      ⟨10, .channelVoice ⟨0x90, .noteOn 60 100⟩⟩,
      ⟨20, .channelVoice ⟨0x80, .noteOff 60 0⟩⟩,
      ⟨5, .meta (.tempo 400000)⟩]).info.tempo = 400000 :=
  ⟨by decide,
   track_assembler_accumulates.1 _ (by decide),
   by rw [track_assembler_accumulates.2.1]; decide⟩

/-- The projector loop in closed form: the current track's remaining events
followed by the later tracks concatenated up to the first empty one. -/
theorem streamAux_eq_concat :
    ∀ (ts : List (List (Nat × LiveEvent))) (cur : List (Nat × LiveEvent)),
      streamAux cur ts = cur ++ concatUntilEmpty ts := by
  intro ts
  induction ts with
  | nil =>
    intro cur
    induction cur with
    | nil => simp [streamAux, concatUntilEmpty]
    | cons e cur ih => simp [streamAux, ih]
  | cons t ts ih =>
    intro cur
    induction cur with
    | nil =>
      cases t with
      | nil => simp [streamAux, concatUntilEmpty]
      | cons e cur2 => simp [streamAux, concatUntilEmpty, ih]
    | cons e cur2 ihc => simp [streamAux, ihc]

/-- C3, evaluation at the failing input.  In a `Simultaneous` file whose
second track is empty and whose third track holds one event, the projector
stops at the empty track: it emits only the first track's event, dropping
the third track's, whereas the claim (and the repository's own
`test_empty_track_handling`) require the per-track streams concatenated in
full — here two events. -/
theorem empty_track_ends_projection :
    MidiFile.intoEvents
        ⟨.ticksPerQuarterNote ⟨1, 0xE0⟩,
          .simultaneous
            [Track.new [⟨0, .channelVoice ⟨0x90, .noteOn 60 100⟩⟩],
             Track.new [],
             Track.new [⟨0, .channelVoice ⟨0x91, .noteOn 62 90⟩⟩]]⟩ =
      [(0, .channelVoice ⟨0x90, .noteOn 60 100⟩)] ∧
    (convertTrack (Track.new [⟨0, .channelVoice ⟨0x90, .noteOn 60 100⟩⟩])
          (some 500000) (.ticksPerQuarterNote ⟨1, 0xE0⟩) ++
        convertTrack (Track.new []) (some 500000) (.ticksPerQuarterNote ⟨1, 0xE0⟩) ++
        convertTrack (Track.new [⟨0, .channelVoice ⟨0x91, .noteOn 62 90⟩⟩])
          (some 500000) (.ticksPerQuarterNote ⟨1, 0xE0⟩)) =
      [(0, .channelVoice ⟨0x90, .noteOn 60 100⟩),
       (0, .channelVoice ⟨0x91, .noteOn 62 90⟩)] := by
  constructor
  · simp only [MidiFile.intoEvents]
    rw [streamAux_eq_concat]
    simp [Track.new, Track.newAux, TrackInfo.default, convertTrack, trackRates,
      concatUntilEmpty, TicksPerQuarterNote.ticksPerQuarterNote]
  · simp [Track.new, Track.newAux, TrackInfo.default, convertTrack, trackRates,
      TicksPerQuarterNote.ticksPerQuarterNote]

/-- C4.  For `Simultaneous` (and trivially `SingleMultiChannel`) files the
first/only track's resolved tempo is imposed on every track — projecting is
the same as projecting a `SequentiallyIndependent` file in which every
track's tempo has been overwritten by the first track's; and in the concrete
`Simultaneous` file where track 1 declares tempo 600000 and track 2 declares
400000 and TPQN is 480, track 2's Δ480 event lands at 600000 µs. -/
theorem conductor_track_tempo :
    (∀ (timing : Timing) (t : Track) (ts : List Track),
      MidiFile.intoEvents ⟨timing, .simultaneous (t :: ts)⟩ =
        MidiFile.intoEvents
          ⟨timing,
            .sequentiallyIndependent ((t :: ts).map (Track.withTempo t.info.tempo))⟩) ∧
    (∀ (timing : Timing) (t : Track),
      MidiFile.intoEvents ⟨timing, .singleMultiChannel t⟩ =
        MidiFile.intoEvents ⟨timing, .sequentiallyIndependent [t]⟩) ∧
    (MidiFile.intoEvents
        ⟨.ticksPerQuarterNote ⟨1, 0xE0⟩,
          .simultaneous
            [Track.new [⟨0, .meta (.tempo 600000)⟩,
               ⟨0, .channelVoice ⟨0x90, .noteOn 60 100⟩⟩],
             Track.new [⟨0, .meta (.tempo 400000)⟩,
               ⟨480, .channelVoice ⟨0x91, .noteOn 48 90⟩⟩]]⟩).map Prod.fst =
      [0, 600000] := by
  refine ⟨fun timing t ts => ?_, fun timing t => rfl, ?_⟩
  · simp only [List.map_cons, MidiFile.intoEvents, List.map_map]
    rfl
  · simp only [MidiFile.intoEvents]
    rw [streamAux_eq_concat]
    simp [Track.new, Track.newAux, TrackInfo.default, adjustTrackInfo, convertTrack,
      trackRates, concatUntilEmpty, TicksPerQuarterNote.ticksPerQuarterNote]

/-- The timestamp map of the projector under `TicksPerQuarterNote` timing,
in closed form. -/
theorem convertTrack_tpqn (track : Track) (fileTempo : Option Nat)
    (tpqn : TicksPerQuarterNote) :
    convertTrack track fileTempo (.ticksPerQuarterNote tpqn) =
      track.events.map fun p =>
        ((⌊((fileTempo.getD track.info.tempo : ℚ) / (tpqn.ticksPerQuarterNote : ℚ))
            * (p.1 : ℚ)
            + (match track.info.smpteOffset with
               | some o => o.asMicros
               | none => 0)⌋).toNat, p.2) := rfl

/-- Absolute-microsecond timestamps are monotone in the tick count when the
per-tick rate is non-negative. -/
theorem timestamp_mono (m off : ℚ) (hm : 0 ≤ m) (a b : Nat) (hab : a ≤ b) :
    (⌊m * (a : ℚ) + off⌋).toNat ≤ (⌊m * (b : ℚ) + off⌋).toNat :=
  Int.toNat_le_toNat <| Int.floor_le_floor <|
    add_le_add_right (mul_le_mul_of_nonneg_left (Nat.cast_le.mpr hab) hm) off

/-- Accumulated ticks in `assembleSpec` are bounded below by the starting
accumulator and are non-decreasing along the list. -/
theorem assembleSpec_fst_mono (evs : List TrackEvent) :
    ∀ t : Nat,
      (∀ p ∈ assembleSpec t evs, t ≤ p.1) ∧
      List.Chain' (fun a b => a.1 ≤ b.1) (assembleSpec t evs) := by
  induction evs with
  | nil => intro t; simp [assembleSpec]
  | cons e rest ih =>
    intro t
    have hstep : ∀ p ∈ assembleSpec (t + e.deltaTime) rest, t ≤ p.1 := fun p hp =>
      le_trans (Nat.le_add_right t e.deltaTime) ((ih _).1 p hp)
    cases he : e.event with
    | meta m =>
      simp only [assembleSpec, he]
      exact ⟨hstep, (ih _).2⟩
    | channelVoice cv =>
      simp only [assembleSpec, he]
      constructor
      · intro p hp
        rcases List.mem_cons.mp hp with rfl | hp
        · exact Nat.le_add_right t e.deltaTime
        · exact hstep p hp
      · rw [List.chain'_cons']
        exact ⟨fun b hb => (ih _).1 b (List.mem_of_mem_head? hb), (ih _).2⟩
    | systemExclusive d =>
      simp only [assembleSpec, he]
      constructor
      · intro p hp
        rcases List.mem_cons.mp hp with rfl | hp
        · exact Nat.le_add_right t e.deltaTime
        · exact hstep p hp
      · rw [List.chain'_cons']
        exact ⟨fun b hb => (ih _).1 b (List.mem_of_mem_head? hb), (ih _).2⟩

/-- C5.  Under `TicksPerQuarterNote` timing, each event's timestamp is
`⌊(tempo / tpqn.ticks) × accumulated_ticks + offset_in_micros⌋` with the
tempo defaulting to 500000 when no Tempo meta appears; the TPQN=480,
tempo-500000 track with deltas `[0, 480, 240]` lands at
`[0, 500000, 750000]`; and timestamps within one assembled track are
monotone non-decreasing (given the `u32` tick sum does not wrap). -/
theorem tpqn_timestamp_formula :
    (∀ evs : List TrackEvent, (∀ e ∈ evs, tempoMetaOf e = none) →
      (Track.new evs).info.tempo = 500000) ∧
    (∀ (track : Track) (fileTempo : Option Nat) (tpqn : TicksPerQuarterNote),
      convertTrack track fileTempo (.ticksPerQuarterNote tpqn) =
        track.events.map fun p =>
          ((⌊((fileTempo.getD track.info.tempo : ℚ) / (tpqn.ticksPerQuarterNote : ℚ))
              * (p.1 : ℚ)
              + (match track.info.smpteOffset with
                 | some o => o.asMicros
                 | none => 0)⌋).toNat, p.2)) ∧
    ((convertTrack (Track.new
        [⟨0, .channelVoice ⟨0x90, .noteOn 60 100⟩⟩,
         ⟨480, .channelVoice ⟨0x80, .noteOff 60 0⟩⟩,
         ⟨240, .channelVoice ⟨0x90, .noteOn 62 80⟩⟩]) none
        (.ticksPerQuarterNote ⟨1, 0xE0⟩)).map Prod.fst = [0, 500000, 750000]) ∧
    (∀ (evs : List TrackEvent) (fileTempo : Option Nat) (tpqn : TicksPerQuarterNote),
      sumDeltas evs < 2 ^ 32 →
      List.Chain' (· ≤ ·)
        ((convertTrack (Track.new evs) fileTempo
          (.ticksPerQuarterNote tpqn)).map Prod.fst)) := by
  refine ⟨fun evs h => ?_, convertTrack_tpqn, ?_, fun evs ft tpqn h => ?_⟩
  · rw [track_new_info, foldl_infoStep_tempo, List.filterMap_eq_nil_iff.mpr h]
    rfl
  · simp [Track.new, Track.newAux, TrackInfo.default, convertTrack, trackRates,
      TicksPerQuarterNote.ticksPerQuarterNote]
    norm_num
    rfl
  · rw [convertTrack_tpqn, track_new_events evs h, List.map_map, List.chain'_map]
    have hm : (0 : ℚ) ≤
        (ft.getD (Track.new evs).info.tempo : ℚ) / (tpqn.ticksPerQuarterNote : ℚ) :=
      div_nonneg (Nat.cast_nonneg _) (Nat.cast_nonneg _)
    exact ((assembleSpec_fst_mono evs 0).2).imp fun a b hab =>
      timestamp_mono _ _ hm _ _ hab

/-- Witness for C5: a one-event track with no tempo meta resolves to the
default tempo 500000, and its timestamps are (vacuously) monotone. -/
theorem tpqn_timestamp_formula_witness :
    (∀ e ∈ [(⟨0, .channelVoice ⟨0x90, .noteOn 60 100⟩⟩ : TrackEvent)],
      tempoMetaOf e = none) ∧
    (Track.new [(⟨0, .channelVoice ⟨0x90, .noteOn 60 100⟩⟩ : TrackEvent)]).info.tempo
      = 500000 ∧
    sumDeltas [(⟨0, .channelVoice ⟨0x90, .noteOn 60 100⟩⟩ : TrackEvent)] < 2 ^ 32 ∧
    List.Chain' (· ≤ ·)
      ((convertTrack
        (Track.new [(⟨0, .channelVoice ⟨0x90, .noteOn 60 100⟩⟩ : TrackEvent)]) none
        (.ticksPerQuarterNote ⟨1, 0xE0⟩)).map Prod.fst) :=
  ⟨by decide,
   tpqn_timestamp_formula.1 _ (by decide),
   by decide,
   tpqn_timestamp_formula.2.2.2 _ none _ (by decide)⟩

end Midix
